import Mathlib

/-!
Verification of the tethys chess-tournament service core.

This file shallowly embeds the Go source of the tethys repository
(protocol client, matchup scheduler, game runner loop, live broadcaster,
position analyzer) into Lean and proves/refutes the specified properties.

Go strings are modelled as `List Char`; Go `int`/`int64` as `Int`;
Go maps as functions or association lists with Go's zero-value-on-miss
semantics; blocking process I/O as explicit streams of lines.
-/

namespace Tethys

/-- Go strings, modelled as lists of characters. -/
abbrev Str := List Char

/-- Coerce a Lean string literal to the `Str` model. -/
def str (s : String) : Str := s.toList

/-- Go `unicode.IsSpace` (the character class used by both
`strings.TrimSpace` and `strings.Fields`). -/
def goIsSpace (c : Char) : Bool :=
  let n := c.toNat
  n == 9 || n == 10 || n == 11 || n == 12 || n == 13 || n == 32 ||
  n == 0x85 || n == 0xA0 || n == 0x1680 ||
  (0x2000 ≤ n && n ≤ 0x200A) ||
  n == 0x2028 || n == 0x2029 || n == 0x202F || n == 0x205F || n == 0x3000

/-- Go `strings.TrimSpace`: drop leading and trailing space characters. -/
def goTrimSpace (s : Str) : Str :=
  ((s.dropWhile goIsSpace).reverse.dropWhile goIsSpace).reverse

/-- Go `strings.HasPrefix p` on `s` (arguments: the string, then the
sought leading token). -/
def goStartsWith : Str → Str → Bool
  | _, [] => true
  | [], _ :: _ => false
  | c :: s, d :: p => c == d && goStartsWith s p

/-- Worker for `goFields`; `acc` holds the current field reversed. -/
def fieldsAux : Str → Str → List Str
  | [], acc => if acc.isEmpty then [] else [acc.reverse]
  | c :: rest, acc =>
    if goIsSpace c then
      if acc.isEmpty then fieldsAux rest [] else acc.reverse :: fieldsAux rest []
    else fieldsAux rest (c :: acc)

/-- Go `strings.Fields`: split around runs of space characters,
dropping empty fields. -/
def goFields (s : Str) : List Str := fieldsAux s []

/-- Go `strings.Join(xs, " ")`. -/
def strJoinSpace : List Str → Str
  | [] => []
  | [x] => x
  | x :: y :: xs => x ++ ' ' :: strJoinSpace (y :: xs)

/-! ## Protocol client (`UCIEngine`, src/unnamed/part_004)

The engine's combined output is modelled as a stream: a finite list of
lines, each tagged with its arrival time in milliseconds since the read
loop began, followed by a tail behaviour — either the stream closes
(`eof`: the next `ReadString` returns an error) or the process stays
alive but silent (`silent`: the next `ReadString` blocks forever). -/

/-- What the output stream does after its listed lines are exhausted. -/
inductive StreamTail
  | eof
  | silent
deriving DecidableEq, Repr

/-- Result of `UCIEngine.ReadUntilPrefix`: the matching line, a timeout
error, a read error (stream closed), or no result at all because the
call blocks forever in `ReadString`. -/
inductive ReadRes
  | found (line : Str)
  | timeoutErr
  | readErr
  | hangs
deriving DecidableEq, Repr

/-- `UCIEngine.ReadUntilPrefix(ctx, tok, timeout)` over the stream model
(the context is modelled as never cancelled).  Each loop iteration first
runs the `select`: the timer case fires only if the timer has already
expired, i.e. only if `now ≥ timeoutMs`; otherwise the `default` branch
performs a *blocking* `ReadString`.  Reading a line advances `now` to
that line's arrival time; the line is trimmed and compared against the
sought leading token.  On a `silent` tail the blocking read never
returns. -/
def readUntilTok (tok : Str) (timeoutMs : Nat) :
    List (Nat × Str) → StreamTail → Nat → ReadRes
  | lines, tail, now =>
    if timeoutMs ≤ now then .timeoutErr
    else
      match lines with
      | [] =>
        match tail with
        | .eof => .readErr
        | .silent => .hangs
      | (t, l) :: rest =>
        let tl := goTrimSpace l
        if goStartsWith tl tok then .found tl
        else readUntilTok tok timeoutMs rest tail t

/-- Result of the read loop of `UCIEngine.BestMoveMovetime`. -/
inductive BMOut
  | move (m : Str)
  | malformed (line : Str)
  | readFail
deriving DecidableEq, Repr

/-- The token the best-move read loop scans for (with trailing space). -/
def bestmoveTok : Str := str "bestmove "

/-- The read loop of `UCIEngine.BestMoveMovetime` over the lines the
engine writes (the stream closing after the last listed line; context
modelled as never cancelled): read a line, trim it, and if it starts
with `"bestmove "` return the second whitespace-separated field — or a
malformed-response error when there is no second field; otherwise keep
reading.  A read error (EOF) is returned as `readFail`. -/
def bestMoveScan : List Str → BMOut
  | [] => .readFail
  | l :: rest =>
    let tl := goTrimSpace l
    if goStartsWith tl bestmoveTok then
      match goFields tl with
      | _ :: m :: _ => .move m
      | _ => .malformed tl
    else bestMoveScan rest

/-! ## Live broadcaster (`Broadcaster`, src/unnamed/part_006)

All of `Subscribe`, `Publish`, the returned unsubscribe closure, and a
subscriber receiving from its channel run under (or synchronize with)
the broadcaster mutex / channel operations, so concurrent executions are
modelled as sequences of atomic events acting on the broadcaster state.
A subscriber's buffered channel of capacity 1 is modelled by its
occupancy count. -/

/-- Broadcaster state: the id counter `next` and the subscriber table
mapping each live subscriber id to its slot occupancy. -/
structure BState where
  next : Nat
  subs : List (Nat × Nat)
deriving DecidableEq, Repr

/-- The initial broadcaster state (`NewBroadcaster`). -/
def BState.init : BState := ⟨0, []⟩

/-- `Subscribe`: allocate the next id with an empty single-slot channel. -/
def bSubscribe (s : BState) : BState :=
  ⟨s.next + 1, s.subs ++ [(s.next, 0)]⟩

/-- `Publish`: for every current subscriber perform a non-blocking send —
an empty slot becomes full, a full slot is left unchanged (the pulse is
dropped). -/
def bPublish (s : BState) : BState :=
  ⟨s.next, s.subs.map fun p => (p.1, if p.2 == 0 then 1 else p.2)⟩

/-- A subscriber receives the pulse buffered in its slot. -/
def bDrain (s : BState) (id : Nat) : BState :=
  ⟨s.next, s.subs.map fun p => if p.1 == id then (p.1, 0) else p⟩

/-- The unsubscribe closure: if the id is still in the table, remove it
(and close its channel); calling it again is a no-op. -/
def bUnsub (s : BState) (id : Nat) : BState :=
  ⟨s.next, s.subs.filter fun p => p.1 ≠ id⟩

/-- One atomic broadcaster event. -/
inductive BEv
  | subscribe
  | publish
  | drain (id : Nat)
  | unsub (id : Nat)
deriving DecidableEq, Repr

/-- Apply one event to the broadcaster state. -/
def bStep (s : BState) : BEv → BState
  | .subscribe => bSubscribe s
  | .publish => bPublish s
  | .drain id => bDrain s id
  | .unsub id => bUnsub s id

/-- Run a sequence of broadcaster events from a state. -/
def bRun (s : BState) : List BEv → BState
  | [] => s
  | e :: es => bRun (bStep s e) es

/-- The set of subscriber ids `Publish` sends (or tries to send) to in
state `s`: exactly the ids present in the subscriber table. -/
def bTargets (s : BState) : List Nat := s.subs.map Prod.fst

/-! ## Position analyzer (`Analyzer`, src/unnamed/part_008) -/

/-- Largest `int64` value. -/
def maxI64 : Nat := 2 ^ 63 - 1

/-- Accumulate a run of ASCII digits into a number; fails on any
non-digit. -/
def digitsAux : Str → Nat → Option Nat
  | [], acc => some acc
  | c :: rest, acc =>
    if c.isDigit then digitsAux rest (acc * 10 + (c.toNat - 48)) else none

/-- Parse a nonempty all-digit string. -/
def digitsToNat : Str → Option Nat
  | [] => none
  | c :: rest => digitsAux (c :: rest) 0

/-- Go `strconv.Atoi` restricted to `err == nil` results: an optional
sign followed by at least one ASCII digit, value within `int64` range
(out-of-range input yields a non-nil error in Go, hence `none` here). -/
def goAtoi (s : Str) : Option Int :=
  match s with
  | '+' :: rest => (digitsToNat rest).bind fun n =>
      if n ≤ maxI64 then some (n : Int) else none
  | '-' :: rest => (digitsToNat rest).bind fun n =>
      if n ≤ 2 ^ 63 then some (-(n : Int)) else none
  | _ => (digitsToNat s).bind fun n =>
      if n ≤ maxI64 then some (n : Int) else none

/-- The token scan of `parseInfoLine`: walk the whitespace-separated
fields, tracking the current `(depth, score, pv)` triple. `depth`
consumes one following field (parsed with `Atoi`, keeping the old depth
on parse failure); `score` consumes the next two fields; `pv` consumes
the whole remainder and ends the scan. A keyword falling at the end of
the field list without its arguments does nothing. -/
def infoScan : List Str → Int → Str → Str → Int × Str × Str
  | [], d, sc, pv => (d, sc, pv)
  | [_], d, sc, pv => (d, sc, pv)
  | w :: v :: rest, d, sc, pv =>
    if w = str "depth" then
      infoScan rest (match goAtoi v with | some n => n | none => d) sc pv
    else if w = str "score" then
      match rest with
      | v2 :: rest2 => infoScan rest2 d (v ++ ' ' :: v2) pv
      | [] => infoScan [v] d sc pv
    else if w = str "pv" then (d, sc, strJoinSpace (v :: rest))
    else infoScan (v :: rest) d sc pv
termination_by l _ _ _ => l.length
decreasing_by all_goals (simp_wf; try omega)

/-- `parseInfoLine`: lines not starting with `"info "` are rejected; the
fields are scanned for `depth`/`score`/`pv`; the line only counts when a
nonzero depth and a nonempty score were found. -/
def parseInfoLine (line : Str) : Option (Int × Str × Str) :=
  if goStartsWith line (str "info ") then
    let r := infoScan (goFields line) 0 [] []
    if r.1 = 0 ∨ r.2.1 = [] then none else some r
  else none

/-- A progress update the worker accepts (depth, score, pv). -/
structure AnaUpd where
  depth : Int
  score : Str
  pv : Str
deriving DecidableEq, Repr

/-- The line-processing loop of `Analyzer.run` after the search command
was issued, over the lines the engine writes: skip lines that do not
parse, skip parsed lines whose depth is below the highest accepted
depth, accept the rest in order.  Returns the final accepted-depth
watermark, the accepted updates in order, and whether the best-move
marker (normal completion) was seen. -/
def runScan : List Str → Int → List AnaUpd → Int × List AnaUpd × Bool
  | [], ld, acc => (ld, acc, false)
  | l :: rest, ld, acc =>
    let tl := goTrimSpace l
    if goStartsWith tl bestmoveTok then (ld, acc, true)
    else
      match parseInfoLine tl with
      | none => runScan rest ld acc
      | some (d, sc, pv) =>
        if d < ld then runScan rest ld acc
        else runScan rest d (acc ++ [⟨d, sc, pv⟩])

/-- In-memory record of the best-known analysis of one position. -/
structure AnalysisInfo where
  ZobristKey : Nat
  FEN : Str
  Score : Str
  PV : Str
  EngineID : Int
  Depth : Int
  UpdatedAt : Nat
  Done : Bool
  Err : Str
deriving DecidableEq, Repr

/-- The Go zero value of `AnalysisInfo`. -/
def AnalysisInfo.zero : AnalysisInfo :=
  ⟨0, [], [], [], 0, 0, 0, false, []⟩

/-- Durable eval-cache row (`db.Eval`). -/
structure Eval where
  ZobristKey : Nat
  FEN : Str
  Score : Str
  PV : Str
  EngineID : Int
  Depth : Int
deriving DecidableEq, Repr

/-- `mergeAnalysis`: overlay the fields of `other` that are set onto
`base` (the `Done` flag is copied unconditionally). -/
def mergeAnalysis (base other : AnalysisInfo) : AnalysisInfo :=
  let b1 := if other.Score ≠ [] then {base with Score := other.Score} else base
  let b2 := if other.PV ≠ [] then {b1 with PV := other.PV} else b1
  let b3 := if other.EngineID ≠ 0 then {b2 with EngineID := other.EngineID} else b2
  let b4 := if other.Depth ≠ 0 then {b3 with Depth := other.Depth} else b3
  let b5 := if other.UpdatedAt ≠ 0 then {b4 with UpdatedAt := other.UpdatedAt} else b4
  let b6 := {b5 with Done := other.Done}
  if other.Err ≠ [] then {b6 with Err := other.Err} else b6

/-- External collaborators of `EnsureAnalysis`: the rules oracle's FEN
parser, the book's Zobrist hash of the parsed position, and the durable
eval cache (`some` exactly when `EvalByZobrist` returns without error). -/
structure AnaOracle where
  validFEN : Str → Bool
  zobrist : Str → Nat
  cache : Nat → Option Eval

/-- `normalizeFEN`: split the trimmed FEN into fields, require at least
four, rebuild the canonical 4-field key, append `" 0 1"`, and require
the rules oracle to parse the result. -/
def normalizeFEN (ora : AnaOracle) (fen : Str) : Option (Str × Str) :=
  let parts := goFields (goTrimSpace fen)
  if parts.length < 4 then none
  else
    let fenKey := strJoinSpace (parts.take 4)
    let full := fenKey ++ str " 0 1"
    if ora.validFEN full then some (fenKey, full) else none

/-- Analyzer state: the jobs table (which keys have a registered
worker), the in-memory latest-result table, and — as an observable of
the semantics — how many live background workers exist per key. -/
structure AnaState where
  jobs : Nat → Bool
  latest : Nat → Option AnalysisInfo
  running : Nat → Nat

/-- The initial analyzer state (`NewAnalyzer`). -/
def AnaState.init : AnaState := ⟨fun _ => false, fun _ => none, fun _ => 0⟩

/-- Result of one `EnsureAnalysis` call: the returned record (`none` on
the error return), the successor state, and how many background workers
this call spawned. -/
structure EnsureOut where
  res : Option AnalysisInfo
  state : AnaState
  started : Nat

/-- The position key an `EnsureAnalysis` call resolves its argument to. -/
def ensureKey (ora : AnaOracle) (fen : Str) : Option Nat :=
  (normalizeFEN ora fen).map fun p => ora.zobrist p.2

/-- `Analyzer.EnsureAnalysis`: normalize the FEN (error return on
failure, before touching any table), hash it, seed the reply from the
durable cache, merge the in-memory record over it, and — atomically
under the mutex — start a background worker only when none is
registered for the key, then store the merged record.
(`zobristFromFEN` re-parses the full FEN `normalizeFEN` just validated,
so its error branch cannot fire.) -/
def ensureStep (ora : AnaOracle) (s : AnaState) (fen : Str) : EnsureOut :=
  match normalizeFEN ora fen with
  | none => ⟨none, s, 0⟩
  | some (fenKey, full) =>
    let key := ora.zobrist full
    let info0 : AnalysisInfo :=
      {AnalysisInfo.zero with ZobristKey := key, FEN := fenKey}
    let info1 :=
      match ora.cache key with
      | some c =>
        {info0 with Score := c.Score, PV := c.PV,
                    EngineID := c.EngineID, Depth := c.Depth}
      | none => info0
    let info2 :=
      match s.latest key with
      | some l => mergeAnalysis info1 l
      | none => info1
    if s.jobs key then
      ⟨some info2,
       {s with latest := fun k => if k = key then some info2 else s.latest k},
       0⟩
    else
      ⟨some info2,
       { jobs := fun k => if k = key then true else s.jobs k,
         latest := fun k => if k = key then some info2 else s.latest k,
         running := fun k => if k = key then s.running k + 1 else s.running k },
       1⟩

/-- A worker's deferred exit action: delete the key from the jobs table;
one fewer worker is live for that key. -/
def exitStep (s : AnaState) (key : Nat) : AnaState :=
  { jobs := fun k => if k = key then false else s.jobs k,
    latest := s.latest,
    running := fun k => if k = key then s.running k - 1 else s.running k }

/-- Analyzer states reachable from `NewAnalyzer` under any interleaving
of atomic `EnsureAnalysis` calls, latest-table writes by running workers
(`updateLatest`/`updateError`/`updateDone`), and worker exits (a worker
can only exit if it is live). -/
inductive AnaReach (ora : AnaOracle) : AnaState → Prop
  | init : AnaReach ora AnaState.init
  | ensure (s : AnaState) (fen : Str) :
      AnaReach ora s → AnaReach ora (ensureStep ora s fen).state
  | write (s : AnaState) (key : Nat) (info : AnalysisInfo) :
      AnaReach ora s →
      AnaReach ora
        {s with latest := fun k => if k = key then some info else s.latest k}
  | exit (s : AnaState) (key : Nat) :
      AnaReach ora s → 0 < s.running key → AnaReach ora (exitStep s key)

/-! ## Matchup scheduler (`selectAssignment`, src/internal/engine/assignment.go)

Go `int64` identities and `int` counts are modelled as `Int`.  The Go
maps built with `fmt.Sprintf("%d\x00%d\x00%d", ...)` keys are modelled
as functions on integer triples (that encoding is injective on integer
triples), with Go's zero-value-on-miss semantics. -/

/-- `db.Engine` as consumed by the scheduler (the `Elo float64` display
field is never read here and is omitted). -/
structure EngineRow where
  ID : Int
  Name : Str
  Path : Str
  Args : Str
  Init : Str
deriving DecidableEq, Repr

/-- The Go zero value of `db.Engine` (what a map miss yields). -/
def EngineRow.zero : EngineRow := ⟨0, [], [], [], []⟩

/-- `db.Matchup` as consumed by the scheduler. -/
structure MatchupRow where
  ID : Int
  EngineAID : Int
  EngineBID : Int
deriving DecidableEq, Repr

/-- `db.MatchupCount`: games played for one ordered (white, black) pair
at one move-time. -/
structure MatchupCount where
  WhiteID : Int
  BlackID : Int
  MovetimeMS : Int
  Count : Int
deriving DecidableEq, Repr

/-- The `configstore.Config` fields read by `selectAssignment`. -/
structure SchedConfig where
  MovetimeMS : Int
  MaxPlies : Int
  BookEnabled : Bool
  BookPath : Str
  BookMaxPlies : Int
deriving DecidableEq, Repr

/-- An ordered candidate pairing. -/
structure matchupCandidate where
  WhiteID : Int
  BlackID : Int
deriving DecidableEq, Repr

/-- The scheduler's resolved assignment. -/
structure ColorAssignment where
  White : EngineRow
  Black : EngineRow
  MovetimeMS : Int
  MaxPlies : Int
  BookEnabled : Bool
  BookPath : Str
  BookMaxPlies : Int
deriving DecidableEq, Repr

/-- The `engineByID` map: iterate the engine list, skipping rows with a
zero id or empty name/path; a later row overwrites an earlier one with
the same id. -/
def engineByID (engines : List EngineRow) : Int → Option EngineRow :=
  engines.foldl
    (fun m e =>
      if e.ID = 0 ∨ e.Name = [] ∨ e.Path = [] then m
      else fun id => if id = e.ID then some e else m id)
    (fun _ => none)

/-- The `countMap`: iterate the count rows; a later row overwrites an
earlier one with the same key; a missing key reads as 0. -/
def countMap (counts : List MatchupCount) : Int × Int × Int → Int :=
  counts.foldl
    (fun m c k =>
      if k = (c.WhiteID, c.BlackID, c.MovetimeMS) then c.Count else m k)
    (fun _ => 0)

/-- `validPairs`: drop pairings with a zero engine id or an engine id
absent from `engineByID`. -/
def validPairs (eng : Int → Option EngineRow) (matchups : List MatchupRow) :
    List MatchupRow :=
  matchups.filter fun p =>
    p.EngineAID != 0 && p.EngineBID != 0 &&
    (eng p.EngineAID).isSome && (eng p.EngineBID).isSome

/-- Candidate generation: a self-pair expands to one ordered candidate,
any other pair to both orderings. -/
def candidatesOf (pairs : List MatchupRow) : List matchupCandidate :=
  pairs.flatMap fun p =>
    if p.EngineAID = p.EngineBID then [⟨p.EngineAID, p.EngineAID⟩]
    else [⟨p.EngineAID, p.EngineBID⟩, ⟨p.EngineBID, p.EngineAID⟩]

/-- The `minCount := -1; ...` fold over the candidates. -/
def minCountOf (cm : Int × Int × Int → Int) (mt : Int)
    (cands : List matchupCandidate) : Int :=
  cands.foldl
    (fun mc c =>
      let cnt := cm (c.WhiteID, c.BlackID, mt)
      if mc = -1 ∨ cnt < mc then cnt else mc)
    (-1)

/-- The filtered candidate list (those at the minimum count), with the
defensive fall-back to all candidates when the filter comes out empty. -/
def filteredOf (cm : Int × Int × Int → Int) (mt : Int)
    (cands : List matchupCandidate) : List matchupCandidate :=
  let f0 := cands.filter fun c =>
    cm (c.WhiteID, c.BlackID, mt) == minCountOf cm mt cands
  if f0 = [] then cands else f0

/-- The field copy and `<= 0` defaulting at the top of
`selectAssignment` (movetime 100ms, ply cap 200, book ply cap 16),
before the engines are resolved. -/
def schedDefaults (cfg : SchedConfig) : ColorAssignment :=
  let a0 : ColorAssignment :=
    { White := EngineRow.zero, Black := EngineRow.zero,
      MovetimeMS := cfg.MovetimeMS, MaxPlies := cfg.MaxPlies,
      BookEnabled := cfg.BookEnabled, BookPath := cfg.BookPath,
      BookMaxPlies := cfg.BookMaxPlies }
  let a1 := if a0.MovetimeMS ≤ 0 then {a0 with MovetimeMS := 100} else a0
  let a2 := if a1.MaxPlies ≤ 0 then {a1 with MaxPlies := 200} else a1
  if a2.BookMaxPlies ≤ 0 then {a2 with BookMaxPlies := 16} else a2

/-- The cursor-reset step: an index that is negative or not below the
filtered length is replaced by 0 (`idx := pickIdx; if idx < 0 || idx >=
len(filtered) { idx = 0 }`). -/
def selIdx (K : Nat) (pickIdx : Int) : Nat :=
  if pickIdx < 0 ∨ (K : Int) ≤ pickIdx then 0 else pickIdx.toNat

/-- `selectAssignment`: defaults, candidate generation, minimum-count
filter, cursor reset when out of range, pick, advance cursor. -/
def selectAssignment (cfg : SchedConfig) (engines : List EngineRow)
    (matchups : List MatchupRow) (counts : List MatchupCount)
    (pickIdx : Int) : ColorAssignment × Int :=
  let a3 := schedDefaults cfg
  let eng := engineByID engines
  let vp := validPairs eng matchups
  if vp = [] then (a3, 0)
  else
    let cm := countMap counts
    let cands := candidatesOf vp
    let filtered := filteredOf cm a3.MovetimeMS cands
    let idx := selIdx filtered.length pickIdx
    let chosen := filtered.getD idx ⟨0, 0⟩
    let white := (eng chosen.WhiteID).getD EngineRow.zero
    let black := (eng chosen.BlackID).getD EngineRow.zero
    ({a3 with White := white, Black := black},
     (((idx + 1) % filtered.length : Nat) : Int))

/-- The candidate list `selectAssignment` indexes with the cursor (the
filtered minimum-count candidates). -/
def selCands (cfg : SchedConfig) (engines : List EngineRow)
    (matchups : List MatchupRow) (counts : List MatchupCount) :
    List matchupCandidate :=
  filteredOf (countMap counts) (schedDefaults cfg).MovetimeMS
    (candidatesOf (validPairs (engineByID engines) matchups))

/-- The assignments returned by `n` consecutive `selectAssignment` calls
that thread each returned cursor into the next call, with no change to
the configuration, engines, matchups, or play counts in between. -/
def selSeqA (cfg : SchedConfig) (engines : List EngineRow)
    (matchups : List MatchupRow) (counts : List MatchupCount) :
    Nat → Int → List ColorAssignment
  | 0, _ => []
  | n + 1, c =>
    (selectAssignment cfg engines matchups counts c).1 ::
      selSeqA cfg engines matchups counts n
        (selectAssignment cfg engines matchups counts c).2

/-- The internal cursor indices used by `n` consecutive calls over a
filtered list of length `K`. -/
def idxSeq (K : Nat) : Nat → Int → List Nat
  | 0, _ => []
  | n + 1, c =>
    selIdx K c :: idxSeq K n (((selIdx K c + 1) % K : Nat) : Int)

/-- The ordered engine-id pair of a returned assignment. -/
def idPair (a : ColorAssignment) : Int × Int := (a.White.ID, a.Black.ID)

/-- The ordered engine-id pair of a candidate. -/
def candPair (c : matchupCandidate) : Int × Int := (c.WhiteID, c.BlackID)

/-! ## Game runner (`Runner.loop` / `Runner.failGame`, src/internal/engine/runner.go)

One iteration of the outer loop after an assignment with both engine
paths set was obtained.  External collaborators — the stop/restart
channels, the rules oracle (`game.Outcome`, UCI decode, `game.Move`),
the book lookup and the engines' best-move replies — are supplied as a
deterministic environment keyed by the move list so far (the game
position is a function of the move list from the start position).
`LiveState` updates and broadcaster pulses do not touch the game record
store and are not tracked here; what is tracked is exactly the list of
`InsertFinishedGame` calls the iteration performs.  The opaque Go error
values interpolated into termination strings via `%v` are abstracted to
the environment-supplied error text. -/

/-- The `configstore.ColorAssignment` fields the ply loop reads. -/
structure RunAssign where
  MovetimeMS : Int
  MaxPlies : Int
  BookEnabled : Bool
  BookPath : Str
  BookMaxPlies : Int
deriving DecidableEq, Repr

/-- One row written by `store.InsertFinishedGame`. -/
structure GameRecord where
  white : Str
  black : Str
  movetimeMS : Int
  result : Str
  termination : Str
  movesUCI : Str
  bookPlies : Nat
deriving DecidableEq, Repr

/-- Environment of one game: signals and oracle replies, keyed by the
move list so far. -/
structure LoopEnv where
  stopAt : List Str → Bool
  restartAt : List Str → Bool
  outcome : List Str → Option (Str × Str)
  bookLookup : List Str → Option Str
  engineBest : List Str → Except Str Str
  decodeOk : List Str → Str → Bool
  applyOk : List Str → Str → Bool

/-- How one game iteration ended: via the ply cap, via a rules-oracle
outcome, or via `failGame` (stop/restart signal, engine failure,
no-move sentinel, illegal move). -/
inductive EndKind
  | capped
  | ruled (result termination : Str)
  | failed (result termination : Str)
deriving DecidableEq, Repr

/-- Result of one game iteration: the records inserted into the game
store, and how the game ended (`none` only when the modelling fuel ran
out before the loop ended). -/
structure LoopOut where
  records : List GameRecord
  ending : Option EndKind
deriving DecidableEq, Repr

/-- Go string `"*"`. -/
def star : Str := str "*"

/-- `Runner.bookMove`: gate on the book settings and the book-ply cap,
then consult the book.  `bookLookup` returning `none` covers a missing
or corrupt book file (`loadBook` error) as well as a position with no
book entry. -/
def bookMoveE (env : LoopEnv) (a : RunAssign) (moves : List Str)
    (ply : Nat) : Option Str :=
  if a.BookEnabled = false ∨ a.BookPath = [] then none
  else if 0 < a.BookMaxPlies ∧ a.BookMaxPlies ≤ (ply : Int) then none
  else env.bookLookup moves

/-- Move acquisition of one ply-loop iteration: consult the book first
(a hit bumps the book-plies counter and costs no engine time), otherwise
ask the side-to-move's client; a client error becomes a game-fatal
error. -/
def acquireMove (env : LoopEnv) (a : RunAssign) (moves : List Str)
    (bp : Nat) : Except Str (Str × Nat) :=
  match bookMoveE env a moves moves.length with
  | some bm => .ok (bm, bp + 1)
  | none =>
    match env.engineBest moves with
    | .error e => .error (str "bestmove error: " ++ e)
    | .ok best => .ok (best, bp)

/-- The ply loop of `Runner.loop`, from a given move list and
book-plies counter.  Each iteration: stop/restart check, ply-cap check,
rules-oracle outcome check, move acquisition (book first, engine
otherwise), the `"(none)"`/`"0000"` sentinel check, UCI decode, move
application; then append the move and continue. -/
def plyLoop (env : LoopEnv) (a : RunAssign) (w b : Str) :
    Nat → List Str → Nat → LoopOut
  | 0, _, _ => ⟨[], none⟩
  | fuel + 1, moves, bp =>
    if env.stopAt moves then
      ⟨[], some (.failed star (str "service stopping"))⟩
    else if env.restartAt moves then
      ⟨[], some (.failed star (str "restarted by admin"))⟩
    else if 0 < a.MaxPlies ∧ a.MaxPlies ≤ (moves.length : Int) then
      ⟨[⟨w, b, a.MovetimeMS, str "1/2-1/2", str "Max plies",
         strJoinSpace moves, bp⟩],
       some .capped⟩
    else
      match env.outcome moves with
      | some (res, term) =>
        ⟨[⟨w, b, a.MovetimeMS, res, term, strJoinSpace moves, bp⟩],
         some (.ruled res term)⟩
      | none =>
        match acquireMove env a moves bp with
        | .error t => ⟨[], some (.failed star t)⟩
        | .ok (best, bp2) =>
          if best = str "(none)" ∨ best = str "0000" then
            ⟨[], some (.failed star (str "engine returned no move"))⟩
          else if env.decodeOk moves best = false then
            ⟨[], some (.failed star (str "illegal move from engine: " ++ best))⟩
          else if env.applyOk moves best = false then
            ⟨[], some (.failed star (str "move apply error: " ++ best))⟩
          else plyLoop env a w b fuel (moves ++ [best]) bp2

/-- Failure points of the start/init/newgame phase preceding the ply
loop: `some errText` makes the corresponding call fail.  In a self-play
game the black client aliases the white one: black is not started
separately and `NewGame` runs once, but the init command list is applied
a second time (and can fail) even then. -/
structure PreEnv where
  selfplay : Bool
  whiteStart : Option Str
  blackStart : Option Str
  whiteInit : Option Str
  blackInit : Option Str
  whiteNew : Option Str
  blackNew : Option Str

/-- One full game iteration of `Runner.loop` after an assignment with
both paths set: start both engines, run init, `ucinewgame`, then the
ply loop from the empty move list.  Every failure goes through
`failGame`, which updates `LiveState` and publishes a pulse but inserts
nothing into the game store. -/
def gameBody (pe : PreEnv) (env : LoopEnv) (a : RunAssign) (w b : Str)
    (fuel : Nat) : LoopOut :=
  match pe.whiteStart with
  | some e => ⟨[], some (.failed star (str "white start error: " ++ e))⟩
  | none =>
  match (if pe.selfplay then none else pe.blackStart) with
  | some e => ⟨[], some (.failed star (str "black start error: " ++ e))⟩
  | none =>
  match pe.whiteInit with
  | some e => ⟨[], some (.failed star (str "white init error: " ++ e))⟩
  | none =>
  match pe.blackInit with
  | some e => ⟨[], some (.failed star (str "black init error: " ++ e))⟩
  | none =>
  match pe.whiteNew with
  | some e => ⟨[], some (.failed star (str "white newgame error: " ++ e))⟩
  | none =>
  match (if pe.selfplay then none else pe.blackNew) with
  | some e => ⟨[], some (.failed star (str "black newgame error: " ++ e))⟩
  | none => plyLoop env a w b fuel [] 0

/-- How the store writes of one game iteration relate to its ending:
error-terminated games (`failGame`) insert nothing; games ended by the
ply cap or by a rules-oracle outcome insert exactly one record. -/
def recordsMatchEnding (o : LoopOut) : Prop :=
  match o.ending with
  | none => o.records = []
  | some (.failed _ _) => o.records = []
  | some .capped => o.records.length = 1
  | some (.ruled _ _) => o.records.length = 1

/-! ## Concrete fixtures used by witnesses and counterexamples -/

/-- A game environment with no signals, no outcome, no book, and an
engine whose best-move query always fails. -/
def envNull : LoopEnv :=
  ⟨fun _ => false, fun _ => false, fun _ => none, fun _ => none,
   fun _ => .error (str "broken pipe"), fun _ _ => true, fun _ _ => true⟩

/-- A game environment with no signals, no outcome, no book, and an
engine that always answers `e2e4` (always accepted by the oracle). -/
def envQuiet : LoopEnv :=
  ⟨fun _ => false, fun _ => false, fun _ => none, fun _ => none,
   fun _ => .ok (str "e2e4"), fun _ _ => true, fun _ _ => true⟩

/-- An assignment with a ply cap of 1 (book disabled). -/
def aCapOne : RunAssign := ⟨100, 1, false, [], 16⟩

/-- A start/init phase in which starting the white engine fails. -/
def preStartFail : PreEnv :=
  ⟨false, some (str "exec: no such file"), none, none, none, none, none⟩

/-- A start/init phase in which every call succeeds. -/
def preOK : PreEnv := ⟨false, none, none, none, none, none, none⟩

/-- A fixed analyzer oracle for witnesses: rejects every FEN. -/
def oraReject : AnaOracle := ⟨fun _ => false, fun _ => 0, fun _ => none⟩

/-- Scheduler fixture: a configuration with no field defaulting needed. -/
def cfgW : SchedConfig := ⟨100, 200, false, [], 16⟩

/-- Scheduler fixture: two valid engines. -/
def engW : List EngineRow :=
  [⟨1, str "alpha", str "/bin/alpha", [], []⟩,
   ⟨2, str "beta", str "/bin/beta", [], []⟩]

/-- Scheduler fixture: one enabled non-self pairing (two ordered
candidates). -/
def mW : List MatchupRow := [⟨1, 1, 2⟩]

/-- Scheduler fixture: no games played yet (all counts zero). -/
def cW : List MatchupCount := []

/-! ## Helper lemmas on the Go string primitives -/

theorem dropWhile_head_false {α : Type} {p : α → Bool} :
    ∀ {l : List α} {c : α} {cs : List α}, l.dropWhile p = c :: cs → p c = false := by
  intro l
  induction l with
  | nil => intro c cs h; simp [List.dropWhile] at h
  | cons a l ih =>
    intro c cs h
    by_cases hp : p a
    · rw [List.dropWhile_cons_of_pos hp] at h
      exact ih h
    · rw [List.dropWhile_cons_of_neg hp] at h
      cases h
      simpa using hp

theorem goTrimSpace_last_not_space (s : Str) {c : Char} {cs : Str}
    (h : (goTrimSpace s).reverse = c :: cs) : goIsSpace c = false := by
  unfold goTrimSpace at h
  rw [List.reverse_reverse] at h
  exact dropWhile_head_false h

theorem goStartsWith_exists {s p : Str} (h : goStartsWith s p = true) :
    ∃ t, s = p ++ t := by
  induction p generalizing s with
  | nil => exact ⟨s, rfl⟩
  | cons d p ih =>
    cases s with
    | nil => simp [goStartsWith] at h
    | cons c s =>
      rw [goStartsWith, Bool.and_eq_true, beq_iff_eq] at h
      obtain ⟨rfl, h2⟩ := h
      obtain ⟨t, rfl⟩ := ih h2
      exact ⟨t, rfl⟩

theorem fieldsAux_ne_nil :
    ∀ (s acc : Str), ((∃ c ∈ s, goIsSpace c = false) ∨ acc ≠ []) →
      fieldsAux s acc ≠ []
  | [], acc, h => by
    rcases h with h | h
    · simp at h
    · simp [fieldsAux, List.isEmpty_iff, h]
  | c :: rest, acc, h => by
    rw [fieldsAux]
    by_cases hc : goIsSpace c
    · rw [if_pos hc]
      by_cases hacc : acc.isEmpty
      · rw [if_pos hacc]
        have hrest : ∃ d ∈ rest, goIsSpace d = false := by
          rcases h with h | h
          · obtain ⟨d, hd, hds⟩ := h
            rcases List.mem_cons.mp hd with rfl | hd2
            · exact absurd hc (by simp [hds])
            · exact ⟨d, hd2, hds⟩
          · exact absurd (List.isEmpty_iff.mp hacc) h
        exact fieldsAux_ne_nil rest [] (Or.inl hrest)
      · rw [if_neg hacc]
        simp
    · rw [if_neg hc]
      exact fieldsAux_ne_nil rest (c :: acc) (Or.inr (by simp))

theorem fieldsAux_cons_nonspace {c : Char} (h : goIsSpace c = false)
    (s acc : Str) : fieldsAux (c :: s) acc = fieldsAux s (c :: acc) := by
  simp [fieldsAux, h]

theorem fieldsAux_cons_space_nonempty {c a : Char} (h : goIsSpace c = true)
    (acc s : Str) :
    fieldsAux (c :: s) (a :: acc) = (a :: acc).reverse :: fieldsAux s [] := by
  simp [fieldsAux, h]

theorem goFields_bm (rest : Str) :
    goFields (str "bestmove " ++ rest) = str "bestmove" :: fieldsAux rest [] := by
  show fieldsAux ('b' :: 'e' :: 's' :: 't' :: 'm' :: 'o' :: 'v' :: 'e' :: ' ' :: rest) [] = _
  rw [fieldsAux_cons_nonspace (by decide), fieldsAux_cons_nonspace (by decide),
    fieldsAux_cons_nonspace (by decide), fieldsAux_cons_nonspace (by decide),
    fieldsAux_cons_nonspace (by decide), fieldsAux_cons_nonspace (by decide),
    fieldsAux_cons_nonspace (by decide), fieldsAux_cons_nonspace (by decide),
    fieldsAux_cons_space_nonempty (by decide)]
  rfl

theorem fields_of_marker (t : Str)
    (hpre : goStartsWith t bestmoveTok = true)
    (hlast : ∀ c cs, t.reverse = c :: cs → goIsSpace c = false) :
    2 ≤ (goFields t).length := by
  obtain ⟨rest, rfl⟩ := goStartsWith_exists hpre
  cases rest with
  | nil =>
    exact absurd (hlast ' ' (str "evomtseb") (by rfl)) (by decide)
  | cons r0 rs =>
    have hmem : ∃ c ∈ r0 :: rs, goIsSpace c = false := by
      obtain ⟨c, cs, hrev⟩ : ∃ c cs, (r0 :: rs).reverse = c :: cs := by
        rcases h : (r0 :: rs).reverse with _ | ⟨c, cs⟩
        · exact absurd (congrArg List.length h) (by simp)
        · exact ⟨c, cs, rfl⟩
      have hc : goIsSpace c = false := by
        apply hlast c (cs ++ (bestmoveTok).reverse)
        rw [List.reverse_append, hrev]
        rfl
      have : c ∈ (r0 :: rs).reverse := by rw [hrev]; exact List.mem_cons_self c cs
      exact ⟨c, List.mem_reverse.mp this, hc⟩
    have h1 := fieldsAux_ne_nil (r0 :: rs) [] (Or.inl hmem)
    rw [show bestmoveTok = str "bestmove " from rfl, goFields_bm]
    rcases h : fieldsAux (r0 :: rs) [] with _ | ⟨x, xs⟩
    · exact absurd h h1
    · simp

/-- C9: in `UCIEngine.BestMoveMovetime`, the malformed-bestmove error
branch is unreachable — any line that, after `strings.TrimSpace`,
starts with `"bestmove "` splits into at least two whitespace-separated
fields, so `parts[1]` always exists. -/
theorem bestmove_malformed_unreachable (line : Str)
    (h : goStartsWith (goTrimSpace line) bestmoveTok = true) :
    2 ≤ (goFields (goTrimSpace line)).length := by
  apply fields_of_marker _ h
  intro c cs hc
  exact goTrimSpace_last_not_space line hc

/-- Witness for C9 at the concrete line `" bestmove e2e4\n"`. -/
theorem bestmove_malformed_unreachable_witness :
    2 ≤ (goFields (goTrimSpace (str " bestmove e2e4\n"))).length :=
  bestmove_malformed_unreachable (str " bestmove e2e4\n") (by decide)

/-! ## C8: the best-move read loop -/

theorem bestMoveScan_cons_nomark {l : Str} {rest : List Str}
    (h : goStartsWith (goTrimSpace l) bestmoveTok = false) :
    bestMoveScan (l :: rest) = bestMoveScan rest := by
  simp [bestMoveScan, h]

theorem bestMoveScan_cons_mark {l : Str} {rest : List Str}
    (h : goStartsWith (goTrimSpace l) bestmoveTok = true) :
    bestMoveScan (l :: rest) =
      match goFields (goTrimSpace l) with
      | _ :: m :: _ => .move m
      | _ => .malformed (goTrimSpace l) := by
  simp [bestMoveScan, h]

/-- C8: `UCIEngine.BestMoveMovetime` reads lines until the first whose
trimmed form starts with `"bestmove "` and returns that line's second
whitespace-separated field; if the stream ends before such a line
appears it returns a read error; if the marker line had fewer than two
fields it would return the malformed-response error. -/
theorem bestmove_scan_spec (lines : List Str) :
    ((∀ l ∈ lines, goStartsWith (goTrimSpace l) bestmoveTok = false) →
      bestMoveScan lines = .readFail) ∧
    (∀ pre l post, lines = pre ++ l :: post →
      (∀ p ∈ pre, goStartsWith (goTrimSpace p) bestmoveTok = false) →
      goStartsWith (goTrimSpace l) bestmoveTok = true →
      (2 ≤ (goFields (goTrimSpace l)).length →
        bestMoveScan lines = .move ((goFields (goTrimSpace l)).getD 1 [])) ∧
      ((goFields (goTrimSpace l)).length < 2 →
        bestMoveScan lines = .malformed (goTrimSpace l))) := by
  constructor
  · intro hall
    induction lines with
    | nil => rfl
    | cons x xs ih =>
      rw [bestMoveScan_cons_nomark (hall x (List.mem_cons_self x xs))]
      exact ih fun p hp => hall p (List.mem_cons_of_mem x hp)
  · intro pre
    induction pre generalizing lines with
    | nil =>
      intro l post hl _ hm
      subst hl
      rw [List.nil_append]
      constructor
      · intro hlen
        rw [bestMoveScan_cons_mark hm]
        rcases hf : goFields (goTrimSpace l) with _ | ⟨x, _ | ⟨m, ms⟩⟩
        · rw [hf] at hlen; simp at hlen
        · rw [hf] at hlen; simp at hlen
        · simp
      · intro hlen
        rw [bestMoveScan_cons_mark hm]
        rcases hf : goFields (goTrimSpace l) with _ | ⟨x, _ | ⟨m, ms⟩⟩
        · simp
        · simp
        · rw [hf] at hlen; simp at hlen; omega
    | cons p ps ih =>
      intro l post hl hpre hm
      subst hl
      have hstep := @bestMoveScan_cons_nomark p (ps ++ l :: post)
        (hpre p (List.mem_cons_self p ps))
      have := ih (ps ++ l :: post) l post rfl
        (fun q hq => hpre q (List.mem_cons_of_mem p hq)) hm
      exact ⟨fun hlen => by rw [List.cons_append, hstep]; exact this.1 hlen,
             fun hlen => by rw [List.cons_append, hstep]; exact this.2 hlen⟩

/-- Witness for C8: a stream whose second line is the marker yields the
move token `e2e4`. -/
theorem bestmove_scan_spec_witness :
    bestMoveScan [str "info depth 1", str "bestmove e2e4"] = .move (str "e2e4") := by
  have h := (bestmove_scan_spec [str "info depth 1", str "bestmove e2e4"]).2
    [str "info depth 1"] (str "bestmove e2e4") [] rfl (by decide) (by decide)
  rw [h.1 (by decide)]
  decide

/-! ## C2: `ReadUntilPrefix` and the 5-second timeout -/

/-- C2 evaluation: `ReadUntilPrefix` does **not** terminate on every
stream without a matching line.  (1) A live engine that writes nothing
makes the call block forever: the blocking `ReadString` sits in the
`select`'s `default` branch, so the expired timer is never consulted.
(2) A stream that closes without a matching line yields a read error,
not a timeout error.  (3) Only when the engine keeps writing
(non-matching) lines does the 5-second timer fire — it is checked
between completed reads. -/
theorem readUntilTok_not_total :
    readUntilTok (str "readyok") 5000 [] .silent 0 = .hangs ∧
    readUntilTok (str "readyok") 5000 [(1000, str "info string hi")] .silent 0
      = .hangs ∧
    readUntilTok (str "readyok") 5000 [] .eof 0 = .readErr ∧
    readUntilTok (str "readyok") 5000
      [(2000, str "a"), (6000, str "b"), (7000, str "c")] .silent 0
      = .timeoutErr := by
  refine ⟨rfl, ?_, rfl, ?_⟩ <;> decide

/-! ## C6: depth monotonicity within one analyzer run -/

theorem runScan_mono (lines : List Str) :
    ∀ (ld : Int) (acc : List AnaUpd),
      acc.Pairwise (fun u1 u2 => u1.depth ≤ u2.depth) →
      (∀ u ∈ acc, u.depth ≤ ld) →
      ((runScan lines ld acc).2.1.Pairwise (fun u1 u2 => u1.depth ≤ u2.depth) ∧
        ∀ u ∈ (runScan lines ld acc).2.1, u.depth ≤ (runScan lines ld acc).1) := by
  induction lines with
  | nil =>
    intro ld acc hp hb
    exact ⟨hp, hb⟩
  | cons l rest ih =>
    intro ld acc hp hb
    rw [runScan]
    by_cases hbm : goStartsWith (goTrimSpace l) bestmoveTok
    · rw [if_pos hbm]
      exact ⟨hp, hb⟩
    · rw [if_neg hbm]
      rcases hpl : parseInfoLine (goTrimSpace l) with _ | ⟨d, sc, pv⟩
      · exact ih ld acc hp hb
      · dsimp only
        by_cases hd : d < ld
        · rw [if_pos hd]
          exact ih ld acc hp hb
        · rw [if_neg hd]
          push_neg at hd
          apply ih d (acc ++ [AnaUpd.mk d sc pv])
          · rw [List.pairwise_append]
            refine ⟨hp, List.pairwise_singleton _ _, ?_⟩
            intro u hu u2 hu2
            rw [List.mem_singleton] at hu2
            subst hu2
            exact le_trans (hb u hu) hd
          · intro u hu
            rcases List.mem_append.mp hu with h | h
            · exact le_trans (hb u h) hd
            · rw [List.mem_singleton] at h
              subst h
              exact le_refl _

/-- C6: within a single `Analyzer.run`, the accepted progress updates
have non-decreasing reported depths — a parsed line with a depth below
the highest accepted depth is skipped — so the depth stored in the
latest-result record never decreases while that search is in flight. -/
theorem analyzer_depth_monotone (lines : List Str) :
    ((runScan lines 0 []).2.1).Pairwise (fun u1 u2 => u1.depth ≤ u2.depth) :=
  (runScan_mono lines 0 [] (List.Pairwise.nil) (by intro u hu; cases hu)).1

/-! ## C7: broadcaster coalescing and unsubscribe -/

/-- Broadcaster state invariant: every slot holds at most one pulse and
every live subscriber id was allocated below the id counter. -/
def BInv (s : BState) : Prop :=
  (∀ p ∈ s.subs, p.2 ≤ 1) ∧ (∀ p ∈ s.subs, p.1 < s.next)

theorem bStep_inv {s : BState} (h : BInv s) (e : BEv) : BInv (bStep s e) := by
  obtain ⟨h1, h2⟩ := h
  cases e with
  | subscribe =>
    constructor
    · intro p hp
      rcases List.mem_append.mp hp with hp | hp
      · exact h1 p hp
      · rw [List.mem_singleton] at hp; subst hp; exact Nat.zero_le 1
    · intro p hp
      rcases List.mem_append.mp hp with hp | hp
      · exact Nat.lt_succ_of_lt (h2 p hp)
      · rw [List.mem_singleton] at hp; subst hp; exact Nat.lt_succ_self _
  | publish =>
    constructor
    · intro p hp
      obtain ⟨q, hq, rfl⟩ := List.mem_map.mp hp
      by_cases hz : q.2 == 0
      · simp only [hz, if_pos]; exact le_refl 1
      · simp only [hz, if_neg]; exact h1 q hq
    · intro p hp
      obtain ⟨q, hq, rfl⟩ := List.mem_map.mp hp
      exact h2 q hq
  | drain id =>
    constructor
    · intro p hp
      obtain ⟨q, hq, rfl⟩ := List.mem_map.mp hp
      by_cases hz : q.1 == id
      · simp only [hz, if_pos]; exact Nat.zero_le 1
      · simp only [hz, if_neg]; exact h1 q hq
    · intro p hp
      obtain ⟨q, hq, rfl⟩ := List.mem_map.mp hp
      by_cases hz : q.1 == id
      · simp only [hz, if_pos]; exact h2 q hq
      · simp only [hz, if_neg]; exact h2 q hq
  | unsub id =>
    exact ⟨fun p hp => h1 p (List.mem_of_mem_filter hp),
           fun p hp => h2 p (List.mem_of_mem_filter hp)⟩

theorem bRun_inv {s : BState} (h : BInv s) :
    ∀ evs : List BEv, BInv (bRun s evs) := by
  intro evs
  induction evs generalizing s with
  | nil => exact h
  | cons e es ih => exact ih (bStep_inv h e)

/-- A dead id (absent from the table, below the id counter) stays dead
across any event: fresh subscriptions use strictly larger ids. -/
theorem bStep_dead {s : BState} {id : Nat} (habs : id ∉ bTargets s)
    (hlt : id < s.next) (e : BEv) :
    id ∉ bTargets (bStep s e) ∧ id < (bStep s e).next := by
  cases e with
  | subscribe =>
    constructor
    · intro hmem
      unfold bTargets bStep bSubscribe at hmem
      rw [List.map_append, List.mem_append] at hmem
      rcases hmem with hmem | hmem
      · exact habs hmem
      · rw [List.map_singleton, List.mem_singleton] at hmem
        subst hmem
        exact Nat.lt_irrefl _ hlt
    · exact Nat.lt_succ_of_lt hlt
  | publish =>
    refine ⟨fun hmem => habs ?_, hlt⟩
    simp only [bTargets, bStep, bPublish] at hmem ⊢
    obtain ⟨q, hq, hfst⟩ := List.mem_map.mp hmem
    obtain ⟨r, hr, rfl⟩ := List.mem_map.mp hq
    exact List.mem_map.mpr ⟨r, hr, hfst⟩
  | drain i =>
    refine ⟨fun hmem => habs ?_, hlt⟩
    simp only [bTargets, bStep, bDrain] at hmem ⊢
    obtain ⟨q, hq, hfst⟩ := List.mem_map.mp hmem
    obtain ⟨r, hr, rfl⟩ := List.mem_map.mp hq
    refine List.mem_map.mpr ⟨r, hr, ?_⟩
    by_cases hz : r.1 == i
    · rw [if_pos hz] at hfst; exact hfst
    · rw [if_neg hz] at hfst; exact hfst
  | unsub i =>
    refine ⟨fun hmem => habs ?_, hlt⟩
    simp only [bTargets, bStep, bUnsub] at hmem ⊢
    obtain ⟨q, hq, hfst⟩ := List.mem_map.mp hmem
    exact List.mem_map.mpr ⟨q, List.mem_of_mem_filter hq, hfst⟩

theorem bRun_dead {s : BState} {id : Nat} (habs : id ∉ bTargets s)
    (hlt : id < s.next) :
    ∀ evs : List BEv, id ∉ bTargets (bRun s evs) := by
  intro evs
  induction evs generalizing s with
  | nil => exact habs
  | cons e es ih =>
    exact ih (bStep_dead habs hlt e).1 (bStep_dead habs hlt e).2

/-- C7: in every broadcaster state reachable from `NewBroadcaster`,
every subscriber's single-slot channel holds at most one undelivered
pulse (`Publish` against a full slot drops the pulse rather than
queueing or blocking); and once a subscriber id has been removed by its
unsubscribe closure, no later sequence of events — in particular no
later `Publish` — ever targets that id's channel again. -/
theorem broadcaster_coalesce_unsub (evs : List BEv) :
    (∀ p ∈ (bRun BState.init evs).subs, p.2 ≤ 1) ∧
    (∀ id, id ∉ bTargets (bRun BState.init evs) →
      id < (bRun BState.init evs).next →
      ∀ more : List BEv, id ∉ bTargets (bRun (bRun BState.init evs) more)) := by
  have hinv : BInv (bRun BState.init evs) :=
    bRun_inv ⟨fun p hp => (by cases hp), fun p hp => (by cases hp)⟩ evs
  exact ⟨hinv.1, fun id habs hlt more => bRun_dead habs hlt more⟩

/-- Witness for C7: subscriber 0 receives two publishes into one slot
(the second pulse is dropped), and after unsubscribing it is no longer a
publish target. -/
theorem broadcaster_coalesce_unsub_witness :
    (∀ p ∈ (bRun BState.init [.subscribe, .publish, .publish]).subs, p.2 ≤ 1) ∧
    (0 ∉ bTargets (bRun (bRun BState.init
        [.subscribe, .publish, .publish, .unsub 0]) [.publish, .subscribe])) := by
  constructor
  · exact (broadcaster_coalesce_unsub [.subscribe, .publish, .publish]).1
  · exact (broadcaster_coalesce_unsub
      [.subscribe, .publish, .publish, .unsub 0]).2 0 (by decide) (by decide)
      [.publish, .subscribe]

/-! ## C5: analyzer single-flight -/

/-- Analyzer invariant: at most one live worker per key, and the jobs
table registers a key exactly while its worker is live. -/
def AnaInv (s : AnaState) : Prop :=
  ∀ k, s.running k ≤ 1 ∧ (s.jobs k = true ↔ s.running k = 1)

theorem ensureStep_inv {ora : AnaOracle} {s : AnaState} (h : AnaInv s)
    (fen : Str) : AnaInv (ensureStep ora s fen).state := by
  unfold ensureStep
  rcases hn : normalizeFEN ora fen with _ | ⟨fenKey, full⟩
  · exact h
  · dsimp only
    by_cases hj : s.jobs (ora.zobrist full)
    · rw [if_pos hj]
      exact h
    · rw [if_neg hj]
      intro k
      dsimp only
      by_cases hk : k = ora.zobrist full
      · have h0 : s.running k = 0 := by
          have hiff := (h k).2
          have hle := (h k).1
          have hne : s.running k ≠ 1 := by
            intro he
            exact hj (by rw [← hk]; exact hiff.mpr he)
          omega
        constructor
        · rw [if_pos hk]
          omega
        · rw [if_pos hk, if_pos hk]
          constructor
          · intro _; omega
          · intro _; rfl
      · constructor
        · rw [if_neg hk]
          exact (h k).1
        · rw [if_neg hk, if_neg hk]
          exact (h k).2

theorem anaReach_inv {ora : AnaOracle} {s : AnaState}
    (h : AnaReach ora s) : AnaInv s := by
  induction h with
  | init =>
    intro k
    exact ⟨Nat.zero_le 1, by simp [AnaState.init]⟩
  | ensure s fen _ ih => exact ensureStep_inv ih fen
  | write s key info _ ih =>
    intro k
    exact ih k
  | exit s key _ hrun ih =>
    intro k
    unfold exitStep
    dsimp only
    by_cases hk : k = key
    · subst hk
      have h1 : s.running k = 1 := by
        have := (ih k).1
        omega
      constructor
      · simp [h1]
      · simp [h1]
    · constructor
      · rw [if_neg hk]; exact (ih k).1
      · rw [if_neg hk, if_neg hk]; exact (ih k).2

/-- C5: in every reachable analyzer state at most one background worker
exists per position key; and an `EnsureAnalysis` call whose position
resolves to a key with a live worker starts no additional worker (the
registration is only removed when that worker itself exits). -/
theorem analyzer_single_flight (ora : AnaOracle) (s : AnaState)
    (h : AnaReach ora s) :
    (∀ k, s.running k ≤ 1) ∧
    (∀ fen k, ensureKey ora fen = some k → 0 < s.running k →
      (ensureStep ora s fen).started = 0) := by
  have hinv := anaReach_inv h
  constructor
  · exact fun k => (hinv k).1
  · intro fen k hkey hrun
    obtain ⟨⟨fenKey, full⟩, hn, hz⟩ := Option.map_eq_some'.mp hkey
    rw [show ((fenKey, full).2 : Str) = full from rfl] at hz
    have hjobs : s.jobs k = true := by
      apply (hinv k).2.mpr
      have := (hinv k).1
      omega
    unfold ensureStep
    rw [hn]
    dsimp only
    rw [hz, if_pos hjobs]

/-- Witness for C5: after one `EnsureAnalysis` call on a state reachable
in one step, the worker count is at most one everywhere, and a second
call for the same position starts nothing. -/
theorem analyzer_single_flight_witness :
    (∀ k, ((ensureStep ⟨fun _ => true, fun _ => 7, fun _ => none⟩
        AnaState.init (str "a b c d")).state.running k ≤ 1)) ∧
    (ensureStep ⟨fun _ => true, fun _ => 7, fun _ => none⟩
        (ensureStep ⟨fun _ => true, fun _ => 7, fun _ => none⟩
          AnaState.init (str "a b c d")).state (str "a b c d")).started = 0 := by
  have h := analyzer_single_flight ⟨fun _ => true, fun _ => 7, fun _ => none⟩
    (ensureStep ⟨fun _ => true, fun _ => 7, fun _ => none⟩
      AnaState.init (str "a b c d")).state
    (AnaReach.ensure AnaState.init (str "a b c d") AnaReach.init)
  refine ⟨h.1, h.2 (str "a b c d") 7 (by decide) (by decide)⟩

/-! ## C10: `EnsureAnalysis` on an invalid FEN is an atomic error -/

/-- C10: if the FEN has fewer than four whitespace-separated fields, or
its first four fields do not parse as a valid position, `EnsureAnalysis`
returns an error, starts no background worker, and leaves the jobs and
latest-result tables (the whole analyzer state) unchanged. -/
theorem ensure_invalid_fen_atomic (ora : AnaOracle) (s : AnaState) (fen : Str)
    (h : (goFields (goTrimSpace fen)).length < 4 ∨
      ora.validFEN
        (strJoinSpace ((goFields (goTrimSpace fen)).take 4) ++ str " 0 1")
        = false) :
    ensureStep ora s fen = ⟨none, s, 0⟩ := by
  have hn : normalizeFEN ora fen = none := by
    unfold normalizeFEN
    by_cases hlen : (goFields (goTrimSpace fen)).length < 4
    · rw [if_pos hlen]
    · rw [if_neg hlen]
      rcases h with h | h
      · exact absurd h hlen
      · dsimp only
        rw [h]
        rfl
  unfold ensureStep
  rw [hn]

/-- Witness for C10 at the three-field input `"x y z"`. -/
theorem ensure_invalid_fen_atomic_witness :
    ensureStep oraReject AnaState.init (str "x y z")
      = ⟨none, AnaState.init, 0⟩ :=
  ensure_invalid_fen_atomic oraReject AnaState.init (str "x y z")
    (Or.inl (by decide))

/-! ## C1: store writes per game ending -/

theorem plyLoop_records (env : LoopEnv) (a : RunAssign) (w b : Str) :
    ∀ (fuel : Nat) (moves : List Str) (bp : Nat),
      recordsMatchEnding (plyLoop env a w b fuel moves bp) := by
  intro fuel
  induction fuel with
  | zero =>
    intro moves bp
    exact rfl
  | succ n ih =>
    intro moves bp
    rw [plyLoop]
    by_cases h1 : env.stopAt moves
    · rw [if_pos h1]; exact rfl
    rw [if_neg h1]
    by_cases h2 : env.restartAt moves
    · rw [if_pos h2]; exact rfl
    rw [if_neg h2]
    by_cases h3 : 0 < a.MaxPlies ∧ a.MaxPlies ≤ (moves.length : Int)
    · rw [if_pos h3]; exact rfl
    rw [if_neg h3]
    rcases ho : env.outcome moves with _ | ⟨res, term⟩
    · dsimp only
      rcases ha : acquireMove env a moves bp with e | ⟨best, bp2⟩
      · exact rfl
      · dsimp only
        by_cases h4 : best = str "(none)" ∨ best = str "0000"
        · rw [if_pos h4]; exact rfl
        rw [if_neg h4]
        by_cases h5 : env.decodeOk moves best = false
        · rw [if_pos h5]; exact rfl
        rw [if_neg h5]
        by_cases h6 : env.applyOk moves best = false
        · rw [if_pos h6]; exact rfl
        rw [if_neg h6]
        exact ih (moves ++ [best]) bp2
    · exact rfl

/-- C1 (amended): for every game iteration that ends, games ended by
`failGame` — start/init/newgame failure, best-move error, the
no-legal-move sentinel, an illegal/unappliable move, or a stop/restart
signal — write **no** record to the game record store, while games ended
normally (ply cap, or decisive/drawn rules-oracle outcome) write exactly
one final record. -/
theorem game_store_writes (pe : PreEnv) (env : LoopEnv) (a : RunAssign)
    (w b : Str) (fuel : Nat) :
    recordsMatchEnding (gameBody pe env a w b fuel) := by
  unfold gameBody
  rcases pe.whiteStart with _ | e
  · dsimp only
    rcases hbs : (if pe.selfplay then none else pe.blackStart) with _ | e
    · dsimp only
      rcases pe.whiteInit with _ | e
      · dsimp only
        rcases pe.blackInit with _ | e
        · dsimp only
          rcases pe.whiteNew with _ | e
          · dsimp only
            rcases hbn : (if pe.selfplay then none else pe.blackNew) with _ | e
            · exact plyLoop_records env a w b fuel [] 0
            · exact rfl
          · exact rfl
        · exact rfl
      · exact rfl
    · exact rfl
  · exact rfl

/-- Counterexample for C1 as stated: a game terminated by a white-engine
start failure ends (with a termination reason) but writes zero records,
not exactly one. -/
theorem game_store_writes_counterexample :
    (gameBody preStartFail envNull aCapOne (str "w") (str "b") 5).ending.isSome
      = true ∧
    (gameBody preStartFail envNull aCapOne (str "w") (str "b") 5).records.length
      = 0 := by
  decide

/-! ## C4: ply-cap termination -/

theorem plyLoop_capped (env : LoopEnv) (a : RunAssign) (w b : Str) :
    ∀ (fuel : Nat) (moves : List Str) (bp : Nat),
      (plyLoop env a w b fuel moves bp).ending = some .capped →
      (plyLoop env a w b fuel moves bp).records.length = 1 ∧
      ∀ r ∈ (plyLoop env a w b fuel moves bp).records,
        r.result = str "1/2-1/2" ∧ r.termination = str "Max plies" := by
  intro fuel
  induction fuel with
  | zero =>
    intro moves bp h
    cases h
  | succ n ih =>
    intro moves bp
    rw [plyLoop]
    by_cases h1 : env.stopAt moves
    · rw [if_pos h1]; intro h; cases h
    rw [if_neg h1]
    by_cases h2 : env.restartAt moves
    · rw [if_pos h2]; intro h; cases h
    rw [if_neg h2]
    by_cases h3 : 0 < a.MaxPlies ∧ a.MaxPlies ≤ (moves.length : Int)
    · rw [if_pos h3]
      intro _
      refine ⟨rfl, ?_⟩
      intro r hr
      rw [List.mem_singleton] at hr
      subst hr
      exact ⟨rfl, rfl⟩
    rw [if_neg h3]
    rcases ho : env.outcome moves with _ | ⟨res, term⟩
    · dsimp only
      rcases ha : acquireMove env a moves bp with e | ⟨best, bp2⟩
      · intro h; cases h
      · dsimp only
        by_cases h4 : best = str "(none)" ∨ best = str "0000"
        · rw [if_pos h4]; intro h; cases h
        rw [if_neg h4]
        by_cases h5 : env.decodeOk moves best = false
        · rw [if_pos h5]; intro h; cases h
        rw [if_neg h5]
        by_cases h6 : env.applyOk moves best = false
        · rw [if_pos h6]; intro h; cases h
        rw [if_neg h6]
        exact ih (moves ++ [best]) bp2
    · intro h; cases h

/-- C4 (amended): a game whose ply loop ends because the move list
reached the configured cap (`MaxPlies > 0`) persists exactly one record,
with result `1/2-1/2` and termination reason `"Max plies"` (note the
capital M in the stored string). -/
theorem gameBody_cases (pe : PreEnv) (env : LoopEnv) (a : RunAssign)
    (w b : Str) (fuel : Nat) :
    (∃ r t, gameBody pe env a w b fuel = ⟨[], some (.failed r t)⟩) ∨
    gameBody pe env a w b fuel = plyLoop env a w b fuel [] 0 := by
  unfold gameBody
  rcases pe.whiteStart with _ | e
  · dsimp only
    rcases (if pe.selfplay then none else pe.blackStart : Option Str) with _ | e
    · dsimp only
      rcases pe.whiteInit with _ | e
      · dsimp only
        rcases pe.blackInit with _ | e
        · dsimp only
          rcases pe.whiteNew with _ | e
          · dsimp only
            rcases (if pe.selfplay then none else pe.blackNew : Option Str)
              with _ | e
            · exact Or.inr rfl
            · exact Or.inl ⟨_, _, rfl⟩
          · exact Or.inl ⟨_, _, rfl⟩
        · exact Or.inl ⟨_, _, rfl⟩
      · exact Or.inl ⟨_, _, rfl⟩
    · exact Or.inl ⟨_, _, rfl⟩
  · exact Or.inl ⟨_, _, rfl⟩

theorem maxplies_game (pe : PreEnv) (env : LoopEnv) (a : RunAssign)
    (w b : Str) (fuel : Nat)
    (h : (gameBody pe env a w b fuel).ending = some .capped) :
    (gameBody pe env a w b fuel).records.length = 1 ∧
    ∀ r ∈ (gameBody pe env a w b fuel).records,
      r.result = str "1/2-1/2" ∧ r.termination = str "Max plies" := by
  rcases gameBody_cases pe env a w b fuel with ⟨r, t, heq⟩ | heq
  · rw [heq] at h
    cases h
  · rw [heq] at h ⊢
    exact plyLoop_capped env a w b fuel [] 0 h

/-- Witness for C4: a quiet engine against a ply cap of 1 ends the game
via the cap, with the single expected record. -/
theorem maxplies_game_witness :
    (gameBody preOK envQuiet aCapOne (str "w") (str "b") 3).records.length = 1 ∧
    ∀ r ∈ (gameBody preOK envQuiet aCapOne (str "w") (str "b") 3).records,
      r.result = str "1/2-1/2" ∧ r.termination = str "Max plies" :=
  maxplies_game preOK envQuiet aCapOne (str "w") (str "b") 3 (by decide)

/-- Counterexample for C4 as stated: at a concrete capped game the
stored termination string is `"Max plies"`, which differs from the
claimed `"max plies"`. -/
theorem maxplies_game_counterexample :
    (gameBody preOK envQuiet aCapOne (str "w") (str "b") 3).ending
      = some .capped ∧
    (gameBody preOK envQuiet aCapOne (str "w") (str "b") 3).records.map
      GameRecord.termination = [str "Max plies"] ∧
    str "Max plies" ≠ str "max plies" := by
  decide

/-! ## C3: scheduler fairness and cursor reset -/

theorem selIdx_lt {K : Nat} (hK : 0 < K) (c : Int) : selIdx K c < K := by
  unfold selIdx
  split_ifs with h
  · exact hK
  · push_neg at h
    omega

theorem selIdx_coe {K : Nat} (i : Nat) (hi : i < K) : selIdx K (i : Int) = i := by
  unfold selIdx
  rw [if_neg]
  · exact Int.toNat_natCast i
  · push_neg
    constructor
    · exact Int.natCast_nonneg i
    · exact_mod_cast hi

theorem selIdx_out {K : Nat} {c : Int} (h : c < 0 ∨ (K : Int) ≤ c) :
    selIdx K c = 0 := by
  unfold selIdx
  rw [if_pos h]

theorem minFold_all_eq {cm : Int × Int × Int → Int} {mt v : Int} :
    ∀ l : List matchupCandidate,
      (∀ c ∈ l, cm (c.WhiteID, c.BlackID, mt) = v) →
      l.foldl
        (fun mc c =>
          let cnt := cm (c.WhiteID, c.BlackID, mt)
          if mc = -1 ∨ cnt < mc then cnt else mc) v = v := by
  intro l
  induction l with
  | nil => intro _; rfl
  | cons c rest ih =>
    intro h
    rw [List.foldl_cons]
    have hc := h c (List.mem_cons_self c rest)
    have hstep :
        (let cnt := cm (c.WhiteID, c.BlackID, mt)
         if v = -1 ∨ cnt < v then cnt else v) = v := by
      dsimp only
      rw [hc]
      by_cases hv : v = -1 ∨ v < v
      · rw [if_pos hv]
      · rw [if_neg hv]
    rw [hstep]
    exact ih fun d hd => h d (List.mem_cons_of_mem c hd)

theorem minCountOf_all_eq {cm : Int × Int × Int → Int} {mt v : Int}
    {l : List matchupCandidate} (hne : l ≠ [])
    (h : ∀ c ∈ l, cm (c.WhiteID, c.BlackID, mt) = v) :
    minCountOf cm mt l = v := by
  cases l with
  | nil => exact absurd rfl hne
  | cons c rest =>
    unfold minCountOf
    rw [List.foldl_cons]
    have hc := h c (List.mem_cons_self c rest)
    have hstep :
        (let cnt := cm (c.WhiteID, c.BlackID, mt)
         if (-1 : Int) = -1 ∨ cnt < -1 then cnt else -1) = v := by
      dsimp only
      rw [if_pos (Or.inl rfl)]
      exact hc
    rw [hstep]
    exact minFold_all_eq rest fun d hd => h d (List.mem_cons_of_mem c hd)

theorem filteredOf_all_eq {cm : Int × Int × Int → Int} {mt v : Int}
    {l : List matchupCandidate} (hne : l ≠ [])
    (h : ∀ c ∈ l, cm (c.WhiteID, c.BlackID, mt) = v) :
    filteredOf cm mt l = l := by
  unfold filteredOf
  have hmin := minCountOf_all_eq hne h
  have hf : (l.filter fun c =>
      cm (c.WhiteID, c.BlackID, mt) == minCountOf cm mt l) = l := by
    apply List.filter_eq_self.mpr
    intro c hc
    rw [hmin, h c hc]
    exact beq_self_eq_true v
  rw [hf]
  rw [if_neg hne]

theorem engineByID_aux (l : List EngineRow) :
    ∀ m : Int → Option EngineRow,
      (∀ id e, m id = some e → e.ID = id) →
      ∀ id e,
        (l.foldl
          (fun m e =>
            if e.ID = 0 ∨ e.Name = [] ∨ e.Path = [] then m
            else fun id => if id = e.ID then some e else m id) m) id = some e →
        e.ID = id := by
  induction l with
  | nil => exact fun m hm id e h => hm id e h
  | cons x l ih =>
    intro m hm id e h
    rw [List.foldl_cons] at h
    refine ih _ ?_ id e h
    intro id2 e2 h2
    by_cases hx : x.ID = 0 ∨ x.Name = [] ∨ x.Path = []
    · rw [if_pos hx] at h2
      exact hm id2 e2 h2
    · rw [if_neg hx] at h2
      by_cases hid : id2 = x.ID
      · rw [if_pos hid] at h2
        cases h2
        exact hid.symm
      · rw [if_neg hid] at h2
        exact hm id2 e2 h2

theorem engineByID_id {engines : List EngineRow} {id : Int} {e : EngineRow}
    (h : engineByID engines id = some e) : e.ID = id :=
  engineByID_aux engines (fun _ => none)
    (fun _ _ h2 => by cases h2) id e h

theorem cand_ids_some {eng : Int → Option EngineRow}
    {matchups : List MatchupRow} :
    ∀ c ∈ candidatesOf (validPairs eng matchups),
      (eng c.WhiteID).isSome = true ∧ (eng c.BlackID).isSome = true := by
  intro c hc
  unfold candidatesOf at hc
  obtain ⟨p, hp, hcp⟩ := List.mem_flatMap.mp hc
  unfold validPairs at hp
  have hpred := List.of_mem_filter hp
  rw [Bool.and_eq_true, Bool.and_eq_true, Bool.and_eq_true] at hpred
  obtain ⟨⟨⟨_, _⟩, hA⟩, hB⟩ := hpred
  by_cases hself : p.EngineAID = p.EngineBID
  · rw [if_pos hself] at hcp
    rw [List.mem_singleton] at hcp
    subst hcp
    exact ⟨hA, hA⟩
  · rw [if_neg hself] at hcp
    rcases List.mem_cons.mp hcp with rfl | hcp2
    · exact ⟨hA, hB⟩
    · rw [List.mem_singleton] at hcp2
      subst hcp2
      exact ⟨hB, hA⟩

/-- The assignment built by `selectAssignment` for filtered index `i`. -/
theorem selectAssignment_eq (cfg : SchedConfig) (engines : List EngineRow)
    (matchups : List MatchupRow) (counts : List MatchupCount) (c : Int)
    (hvp : validPairs (engineByID engines) matchups ≠ []) :
    selectAssignment cfg engines matchups counts c =
      ({schedDefaults cfg with
         White := (engineByID engines
           ((selCands cfg engines matchups counts).getD
             (selIdx (selCands cfg engines matchups counts).length c)
             ⟨0, 0⟩).WhiteID).getD EngineRow.zero,
         Black := (engineByID engines
           ((selCands cfg engines matchups counts).getD
             (selIdx (selCands cfg engines matchups counts).length c)
             ⟨0, 0⟩).BlackID).getD EngineRow.zero},
       (((selIdx (selCands cfg engines matchups counts).length c + 1)
          % (selCands cfg engines matchups counts).length : Nat) : Int)) := by
  unfold selectAssignment selCands
  rw [if_neg hvp]

theorem selCands_ne_nil {cfg : SchedConfig} {engines : List EngineRow}
    {matchups : List MatchupRow} {counts : List MatchupCount}
    (hne : candidatesOf (validPairs (engineByID engines) matchups) ≠ []) :
    selCands cfg engines matchups counts ≠ [] := by
  unfold selCands filteredOf
  dsimp only
  split_ifs
  · exact hne
  · assumption

theorem candidatesOf_nil_of_validPairs_nil {eng : Int → Option EngineRow}
    {matchups : List MatchupRow}
    (h : validPairs eng matchups = []) : candidatesOf (validPairs eng matchups) = [] := by
  rw [h]
  rfl

theorem idxSeq_coe {K : Nat} (hK : 0 < K) :
    ∀ (n : Nat) (i : Nat), i < K →
      idxSeq K n ((i : Int)) = (List.range n).map fun j => (i + j) % K := by
  intro n
  induction n with
  | zero => intro i _; rfl
  | succ n ih =>
    intro i hi
    rw [idxSeq, selIdx_coe i hi]
    rw [ih ((i + 1) % K) (Nat.mod_lt _ hK)]
    rw [List.range_succ_eq_map, List.map_cons, List.map_map]
    congr 1
    · rw [Nat.add_zero, Nat.mod_eq_of_lt hi]
    · apply List.map_congr_left
      intro j _
      show ((i + 1) % K + j) % K = (i + (j + 1)) % K
      rw [Nat.mod_add_mod]
      congr 1
      omega

theorem idxSeq_eq {K : Nat} (hK : 0 < K) (n : Nat) (c : Int) :
    idxSeq K n c = (List.range n).map fun j => (selIdx K c + j) % K := by
  cases n with
  | zero => rfl
  | succ n =>
    rw [idxSeq, idxSeq_coe hK n ((selIdx K c + 1) % K) (Nat.mod_lt _ hK)]
    rw [List.range_succ_eq_map, List.map_cons, List.map_map]
    congr 1
    · rw [Nat.add_zero, Nat.mod_eq_of_lt (selIdx_lt hK c)]
    · apply List.map_congr_left
      intro j _
      show ((selIdx K c + 1) % K + j) % K = (selIdx K c + (j + 1)) % K
      rw [Nat.mod_add_mod]
      congr 1
      omega

theorem rotate_mod_perm {K : Nat} (hK : 0 < K) (i0 : Nat) :
    ((List.range K).map fun j => (i0 + j) % K).Perm (List.range K) := by
  have hnd : ((List.range K).map fun j => (i0 + j) % K).Nodup := by
    apply List.Nodup.map_on ?_ (List.nodup_range K)
    intro x hx y hy hxy
    rw [List.mem_range] at hx hy
    have : x ≡ y [MOD K] :=
      Nat.ModEq.add_left_cancel' i0 hxy
    unfold Nat.ModEq at this
    rw [Nat.mod_eq_of_lt hx, Nat.mod_eq_of_lt hy] at this
    exact this
  have hsub : ((List.range K).map fun j => (i0 + j) % K) ⊆ List.range K := by
    intro x hx
    obtain ⟨j, _, rfl⟩ := List.mem_map.mp hx
    rw [List.mem_range]
    exact Nat.mod_lt _ hK
  have hsp := List.Nodup.subperm hnd hsub
  apply hsp.perm_of_length_le
  rw [List.length_map, List.length_range]

theorem map_getD_range {α : Type} (l : List α) (d : α) :
    (List.range l.length).map (fun i => l.getD i d) = l := by
  induction l with
  | nil => rfl
  | cons x xs ih =>
    rw [List.length_cons, List.range_succ_eq_map, List.map_cons, List.map_map]
    have h2 : (List.range xs.length).map ((fun i => (x :: xs).getD i d) ∘ Nat.succ)
        = (List.range xs.length).map fun i => xs.getD i d := by
      apply List.map_congr_left
      intro j _
      rfl
    rw [h2, ih]
    rfl

theorem idxSeq_mem_lt {K : Nat} (hK : 0 < K) (n : Nat) (c : Int) :
    ∀ i ∈ idxSeq K n c, i < K := by
  rw [idxSeq_eq hK]
  intro i hi
  obtain ⟨j, _, rfl⟩ := List.mem_map.mp hi
  exact Nat.mod_lt _ hK

theorem idxSeq_perm_range {K : Nat} (hK : 0 < K) (c : Int) :
    (idxSeq K K c).Perm (List.range K) := by
  rw [idxSeq_eq hK]
  exact rotate_mod_perm hK _

theorem selSeqA_eq (cfg : SchedConfig) (engines : List EngineRow)
    (matchups : List MatchupRow) (counts : List MatchupCount)
    (hvp : validPairs (engineByID engines) matchups ≠ []) :
    ∀ (n : Nat) (c : Int),
      selSeqA cfg engines matchups counts n c =
        (idxSeq (selCands cfg engines matchups counts).length n c).map fun i =>
          {schedDefaults cfg with
            White := (engineByID engines
              ((selCands cfg engines matchups counts).getD i
                ⟨0, 0⟩).WhiteID).getD EngineRow.zero,
            Black := (engineByID engines
              ((selCands cfg engines matchups counts).getD i
                ⟨0, 0⟩).BlackID).getD EngineRow.zero} := by
  intro n
  induction n with
  | zero => intro c; rfl
  | succ n ih =>
    intro c
    rw [selSeqA, idxSeq, List.map_cons]
    rw [selectAssignment_eq cfg engines matchups counts c hvp]
    congr 1
    exact ih _

/-- C3: with `K` ordered candidates that all carry the same play count,
(1) `K` consecutive `selectAssignment` calls threading the returned
cursor — with no intervening count or configuration change — return
assignments whose ordered engine-id pairs are a permutation of the `K`
candidates, i.e. each candidate is selected exactly once before any
repeats; and (2) a call with a cursor that is negative or at least the
candidate count resets it to 0 — it returns the same result as a call
with cursor 0 and a next-cursor that is again in range (never an error
or out-of-range access). -/
theorem scheduler_fairness_and_reset (cfg : SchedConfig)
    (engines : List EngineRow) (matchups : List MatchupRow)
    (counts : List MatchupCount) (v : Int)
    (hne : candidatesOf (validPairs (engineByID engines) matchups) ≠ [])
    (heq : ∀ c ∈ candidatesOf (validPairs (engineByID engines) matchups),
      countMap counts (c.WhiteID, c.BlackID, (schedDefaults cfg).MovetimeMS)
        = v)
    (c0 : Int) :
    ((selSeqA cfg engines matchups counts
        (candidatesOf (validPairs (engineByID engines) matchups)).length
        c0).map idPair).Perm
      ((candidatesOf (validPairs (engineByID engines) matchups)).map
        candPair) ∧
    (∀ c : Int,
      (c < 0 ∨
        ((candidatesOf (validPairs (engineByID engines) matchups)).length : Int)
          ≤ c) →
      selectAssignment cfg engines matchups counts c
        = selectAssignment cfg engines matchups counts 0 ∧
      0 ≤ (selectAssignment cfg engines matchups counts c).2 ∧
      (selectAssignment cfg engines matchups counts c).2 <
        ((candidatesOf (validPairs (engineByID engines) matchups)).length
          : Int)) := by
  have hvp : validPairs (engineByID engines) matchups ≠ [] := by
    intro h0
    exact hne (candidatesOf_nil_of_validPairs_nil h0)
  have hfc : selCands cfg engines matchups counts
      = candidatesOf (validPairs (engineByID engines) matchups) := by
    unfold selCands
    exact filteredOf_all_eq hne heq
  have hK : 0 < (candidatesOf (validPairs (engineByID engines) matchups)).length :=
    List.length_pos.mpr hne
  constructor
  · rw [selSeqA_eq cfg engines matchups counts hvp, hfc]
    have hpt : ∀ i ∈ idxSeq
        (candidatesOf (validPairs (engineByID engines) matchups)).length
        (candidatesOf (validPairs (engineByID engines) matchups)).length c0,
        idPair
          {schedDefaults cfg with
            White := (engineByID engines
              (((candidatesOf (validPairs (engineByID engines) matchups)).getD i
                ⟨0, 0⟩)).WhiteID).getD EngineRow.zero,
            Black := (engineByID engines
              (((candidatesOf (validPairs (engineByID engines) matchups)).getD i
                ⟨0, 0⟩)).BlackID).getD EngineRow.zero}
          = candPair
            ((candidatesOf (validPairs (engineByID engines) matchups)).getD i
              ⟨0, 0⟩) := by
      intro i hi
      have hilt := idxSeq_mem_lt hK _ c0 i hi
      have hmem : (candidatesOf (validPairs (engineByID engines) matchups)).getD i
          ⟨0, 0⟩ ∈ candidatesOf (validPairs (engineByID engines) matchups) := by
        rw [List.getD_eq_getElem _ _ hilt]
        exact List.getElem_mem _
      obtain ⟨hidW, hidB⟩ := cand_ids_some _ hmem
      obtain ⟨eW, heW⟩ := Option.isSome_iff_exists.mp hidW
      obtain ⟨eB, heB⟩ := Option.isSome_iff_exists.mp hidB
      unfold idPair candPair
      rw [heW, heB]
      simp only [Option.getD_some]
      rw [engineByID_id heW, engineByID_id heB]
    have hlist :
        ((idxSeq (candidatesOf (validPairs (engineByID engines) matchups)).length
          (candidatesOf (validPairs (engineByID engines) matchups)).length
          c0).map fun i =>
            {schedDefaults cfg with
              White := (engineByID engines
                (((candidatesOf (validPairs (engineByID engines) matchups)).getD i
                  ⟨0, 0⟩)).WhiteID).getD EngineRow.zero,
              Black := (engineByID engines
                (((candidatesOf (validPairs (engineByID engines) matchups)).getD i
                  ⟨0, 0⟩)).BlackID).getD EngineRow.zero}).map idPair
          = (idxSeq (candidatesOf (validPairs (engineByID engines) matchups)).length
              (candidatesOf (validPairs (engineByID engines) matchups)).length
              c0).map fun i =>
                candPair
                  ((candidatesOf (validPairs (engineByID engines) matchups)).getD i
                    ⟨0, 0⟩) := by
      rw [List.map_map]
      exact List.map_congr_left fun i hi => hpt i hi
    rw [hlist]
    have hperm := (idxSeq_perm_range hK c0).map
      (fun i => candPair
        ((candidatesOf (validPairs (engineByID engines) matchups)).getD i ⟨0, 0⟩))
    have hrange : (List.range
        (candidatesOf (validPairs (engineByID engines) matchups)).length).map
        (fun i => candPair
          ((candidatesOf (validPairs (engineByID engines) matchups)).getD i
            ⟨0, 0⟩))
        = (candidatesOf (validPairs (engineByID engines) matchups)).map
            candPair := by
      rw [show (fun i => candPair
          ((candidatesOf (validPairs (engineByID engines) matchups)).getD i
            ⟨0, 0⟩))
          = candPair ∘ (fun i =>
            (candidatesOf (validPairs (engineByID engines) matchups)).getD i
              ⟨0, 0⟩) from rfl]
      rw [← List.map_map, map_getD_range]
    rw [← hrange]
    exact hperm
  · intro c hc
    rw [selectAssignment_eq cfg engines matchups counts c hvp,
      selectAssignment_eq cfg engines matchups counts 0 hvp, hfc]
    have h00 : selIdx
        (candidatesOf (validPairs (engineByID engines) matchups)).length
        (0 : Int) = 0 := by
      unfold selIdx
      rw [if_neg (by push_neg; exact ⟨le_refl 0, by exact_mod_cast hK⟩)]
      rfl
    rw [selIdx_out hc, h00]
    refine ⟨rfl, ?_, ?_⟩
    · dsimp only
      exact Int.natCast_nonneg _
    · dsimp only
      exact_mod_cast Nat.mod_lt _ hK

/-- Witness for C3: two engines, one enabled pairing (two ordered
candidates), zero play counts; two threaded calls from an out-of-range
cursor permute both candidates, and a negative cursor behaves like
cursor 0. -/
theorem scheduler_fairness_and_reset_witness :
    ((selSeqA cfgW engW mW cW
        (candidatesOf (validPairs (engineByID engW) mW)).length 5).map
      idPair).Perm
      ((candidatesOf (validPairs (engineByID engW) mW)).map candPair) ∧
    selectAssignment cfgW engW mW cW (-3)
      = selectAssignment cfgW engW mW cW 0 := by
  have h := scheduler_fairness_and_reset cfgW engW mW cW 0
    (by decide) (by decide) 5
  exact ⟨h.1, (h.2 (-3) (by decide)).1⟩

end Tethys
